import Mathlib

/-!
Verification of the CIAN agenda application (src/streamlit_app.py).

The program is a Streamlit CRUD app over four tables (patients,
professionals, services, appointments) with one piece of domain logic:
time-interval overlap checking when booking an appointment.  We embed the
CSV-fallback persistence semantics (association-list rows), the domain
helpers (slot generation, the overlap predicate), and the page-level
flows the claims refer to (booking validation, status update, report
KPIs, the login gate).

Conventions of the embedding:
* Times of day and dates are the strings the program manipulates
  (Python compares them lexicographically; so does the `LinearOrder`
  on `String`).
* Values read back from a table are modelled post-stringification:
  an absent column stringifies to the empty string.
* Python floats used for prices are modelled as exact rationals.
* The nondeterministic timestamp-derived key of the CSV fallback is an
  explicit `freshKey` parameter.
-/

namespace CianAgenda

/-- Splitting a character list on the colon character, mirroring
Python's str.split applied to a time string such as 09:30. -/
def splitOnColon : List Char → List (List Char)
  | [] => [[]]
  | c :: rest =>
    let r := splitOnColon rest
    if c = ':' then [] :: r
    else
      match r with
      | [] => [[c]]
      | g :: gs => (c :: g) :: gs

/-- Reading a list of decimal digits as a number, mirroring Python's
int applied to a digit string. -/
def digitsToNat (cs : List Char) : Nat :=
  cs.foldl (fun n c => 10 * n + (c.toNat - 48)) 0

/-- Parsing an HH:MM string into minutes since midnight.  The source does
s_h, s_m = map(int, start.split(":")) and then builds a datetime; a
malformed string raises in Python, here it defaults to 0. -/
def parseHM (s : String) : Nat :=
  match splitOnColon s.toList with
  | [h, m] => 60 * digitsToNat h + digitsToNat m
  | _ => 0

/-- Two-digit zero padding, as in strftime percent-H / percent-M. -/
def pad2 (n : Nat) : String :=
  if n < 10 then "0" ++ toString n else toString n

/-- Formatting minutes since midnight as HH:MM (strftime wraps the hour
at 24). -/
def fmtHM (m : Nat) : String :=
  pad2 (m / 60 % 24) ++ ":" ++ pad2 (m % 60)

/-- Formatting minutes since midnight as HH:MM:SS with zero seconds, as
the booking flow does for the computed end time. -/
def fmtHMS (m : Nat) : String :=
  fmtHM m ++ ":00"

/-- Fueled loop body of generate_slots: while cur is at most endT,
emit cur and advance by the block size.  The fuel chosen in
generate_slots below is enough for every positive block size; the
Python loop diverges when the block size is zero, which no claim
concerns. -/
def slotsAux : Nat → Nat → Nat → Nat → List Nat
  | 0, _, _, _ => []
  | fuel + 1, block, cur, endT =>
    if cur ≤ endT then cur :: slotsAux fuel block (cur + block) endT else []

/-- Embedding of generate_slots (src/streamlit_app.py lines 145-154):
start-of-block times from the day start through the day end inclusive,
rendered as HH:MM strings. -/
def generate_slots (block_minutes : Nat) (start endS : String) : List String :=
  let s := parseHM start
  let e := parseHM endS
  (slotsAux (e + 1 - s) block_minutes s e).map fmtHM

/-- Lexicographic strict comparison of character lists, the order Python
uses on strings (by code point). -/
def lexLt : List Char → List Char → Bool
  | _, [] => false
  | [], _ :: _ => true
  | a :: as, b :: bs => a < b || (a == b && lexLt as bs)

/-- Computable rendering of the less-or-equal comparison Python applies
to time-of-day strings. -/
def strLe (a b : String) : Bool :=
  !(lexLt b.data a.data)

/-- Embedding of overlaps (src/streamlit_app.py lines 156-157):
not (a_end <= b_start or b_end <= a_start), on lexicographically
compared time strings. -/
def overlaps (a_start a_end b_start b_end : String) : Bool :=
  !(strLe a_end b_start || strLe b_end a_start)

theorem lexLt_iff : ∀ as bs : List Char, lexLt as bs = true ↔ List.Lex (· < ·) as bs := by
  intro as
  induction as with
  | nil =>
    intro bs
    cases bs with
    | nil => simp [lexLt]
    | cons b bs => simp [lexLt]; exact List.Lex.nil
  | cons a as ih =>
    intro bs
    cases bs with
    | nil =>
      simp [lexLt]
    | cons b bs =>
      simp [lexLt, ih]
      constructor
      · rintro (h | ⟨rfl, h⟩)
        · exact List.Lex.rel h
        · exact List.Lex.cons h
      · intro h
        cases h with
        | cons h => exact Or.inr ⟨rfl, h⟩
        | rel h => exact Or.inl h

theorem strLe_iff (a b : String) : strLe a b = true ↔ a ≤ b := by
  rw [strLe, Bool.not_eq_true', ← Bool.not_eq_true, lexLt_iff, ← not_lt]
  exact not_congr (Iff.symm String.lt_iff_toList_lt)

/-- Streamlit session state relevant to the auth gate. -/
structure Session where
  authed : Bool
  user_email : String
deriving DecidableEq, Repr

/-- Embedding of the Entrar button handler in require_auth
(src/streamlit_app.py lines 26-34).  The configured passphrase is
st.secrets.get("app_password", None); Python truthiness makes both an
absent and an empty passphrase fall to the rejection branch, which
leaves the session unchanged and shows an error. -/
def login_click (app_password : Option String) (email pwd : String) (s : Session) : Session :=
  match app_password with
  | none => s
  | some expected =>
    if expected ≠ "" ∧ pwd = expected then { authed := true, user_email := email } else s

/-- Service row as used by the booking flow (price may be a missing
cell, read back as float("nan") only through sr.get with default 0). -/
structure Service where
  id : String
  name : String
  duration_minutes : Nat
  price : Option ℚ
deriving DecidableEq, Repr

/-- Appointment row, with the string-valued fields the booking flow
reads back (an absent value stringifies to the empty string) and the
price kept as an optional exact rational. -/
structure Appt where
  id : String
  patient_id : String
  professional_id : String
  service_id : String
  date : String
  start_time : String
  end_time : String
  status : String
  notes : Option String
  price : Option ℚ
  created_at : String
deriving DecidableEq, Repr

/-- Embedding of the overlap scan in page_agenda
(src/streamlit_app.py lines 293-303): filter the appointments to the
same professional and day, skip rows whose start or end time is falsy,
and test overlaps against the rest. -/
def conflictScan (apps : List Appt) (prid day start_t end_t : String) : Bool :=
  (apps.filter fun r => r.professional_id == prid && r.date == day).any
    fun r => !(r.start_time == "") && !(r.end_time == "") &&
      overlaps start_t end_t r.start_time r.end_time

/-- Embedding of the Crear cita handler in page_agenda
(src/streamlit_app.py lines 279-320) after the placeholder check and id
resolution: compute the candidate interval, run the conflict scan, and
either report a conflict (no write) or insert the appointment row.  The
second component records whether the row was inserted; newId stands for
the id the storage layer generates. -/
def page_agenda_create (apps : List Appt) (pid prid : String) (srv : Service)
    (day slot : String) (dur : Nat) (notes : Option String)
    (created newId : String) : List Appt × Bool :=
  let price := srv.price.getD 0
  let start_t := slot ++ ":00"
  let end_t := fmtHMS (parseHM slot + dur)
  if conflictScan apps prid day start_t end_t then
    (apps, false)
  else
    (apps ++ [{ id := newId, patient_id := pid, professional_id := prid,
                service_id := srv.id, date := day, start_time := start_t,
                end_time := end_t, status := "programada", notes := notes,
                price := some price, created_at := created }], true)

/-- Embedding of the report scope in page_reportes
(src/streamlit_app.py line 379) with an empty professional filter: the
appointments whose date string lies between the two range endpoints. -/
def reportScope (df : List Appt) (d1 d2 : String) : List Appt :=
  df.filter fun r => strLe d1 r.date && strLe r.date d2

/-- Embedding of total_citas (src/streamlit_app.py line 388). -/
def total_citas (df : List Appt) (d1 d2 : String) : Nat :=
  (reportScope df d1 d2).length

/-- Embedding of ingresos (src/streamlit_app.py line 392): sum of the
price column over the scope with missing values filled with zero. -/
def ingresos (df : List Appt) (d1 d2 : String) : ℚ :=
  ((reportScope df d1 d2).map fun r => r.price.getD 0).sum

/-- Count of distinct values of a column, as pandas nunique computes it
on these string columns. -/
def nuniq (l : List String) : Nat :=
  l.dedup.length

/-- Embedding of slots_por_dia (src/streamlit_app.py lines 413-416):
workday length in minutes plus one block, floor-divided by the block
size and floored to at least 1. -/
def slots_por_dia (block_minutes : Nat) (workday_start workday_end : String) : Int :=
  let jornada_min : Int :=
    (parseHM workday_end : Int) - (parseHM workday_start : Int) + block_minutes
  max 1 (Int.fdiv jornada_min block_minutes)

/-- Embedding of total_slots_disp (src/streamlit_app.py lines 418-420):
distinct professionals in scope times distinct dates in scope times
slots per day. -/
def total_slots_disp (df : List Appt) (d1 d2 : String)
    (block_minutes : Nat) (workday_start workday_end : String) : Int :=
  (nuniq ((reportScope df d1 d2).map (·.professional_id)) : Int) *
    (nuniq ((reportScope df d1 d2).map (·.date)) : Int) *
    slots_por_dia block_minutes workday_start workday_end

/-- Embedding of ocup (src/streamlit_app.py line 421): occupancy
percentage, zero when no slot is available. -/
def ocup (df : List Appt) (d1 d2 : String)
    (block_minutes : Nat) (workday_start workday_end : String) : ℚ :=
  let total := total_slots_disp df d1 d2 block_minutes workday_start workday_end
  if 0 < total then ((total_citas df d1 d2 : ℚ) / (total : ℚ)) * 100 else 0

/-- Table row of the CSV fallback, as an association list from column
names to stringified cell values; an absent association is an absent
column. -/
abbrev Row := List (String × String)

/-- Setting one key of a row, mirroring dict assignment and the
pandas single-cell write: replace in place when the key exists,
append otherwise. -/
def rowSet : Row → String → String → Row
  | [], c, v => [(c, v)]
  | (k, w) :: rest, c, v =>
    if k == c then (k, v) :: rest else (k, w) :: rowSet rest c v

/-- Writing every supplied column of a record into a row, mirroring the
loop for k, v in data.items(): df.loc[mask, k] = v. -/
def applyData (r : Row) (data : Row) : Row :=
  data.foldl (fun acc kv => rowSet acc kv.1 kv.2) r

/-- Removal of leading and trailing whitespace, as Python's str.strip
does for the fresh-key test. -/
def strip (s : String) : String :=
  ⟨((s.data.dropWhile Char.isWhitespace).reverse.dropWhile Char.isWhitespace).reverse⟩

/-- Test of the Python condition pk not in data or not
str(data.get(pk)).strip() guarding fresh-key generation in upsert_row
(src/streamlit_app.py line 116). -/
def needsFresh (data : Row) (pk : String) : Bool :=
  match data.lookup pk with
  | none => true
  | some v => strip v == ""

/-- Test of the pandas mask df[pk].astype(str) == str(data[pk]) on one
row (src/streamlit_app.py line 121). -/
def matchesKey (pk key : String) (r : Row) : Bool :=
  match r.lookup pk with
  | some v => v == key
  | none => false

/-- Embedding of the CSV-fallback branch of upsert_row
(src/streamlit_app.py lines 114-128): generate a key when the supplied
one is absent or blank, then insert into an empty table, overwrite the
supplied columns of every key-matching row, or append when no row
matches.  freshKey stands for the timestamp-derived key str(int(
dt.datetime.now().timestamp()*1000)). -/
def upsert_row (df : List Row) (data0 : Row) (pk freshKey : String) : List Row :=
  let data := if needsFresh data0 pk then rowSet data0 pk freshKey else data0
  if df.isEmpty then [data]
  else
    let key := (data.lookup pk).getD ""
    if df.any (matchesKey pk key) then
      df.map fun r => if matchesKey pk key r then applyData r data else r
    else
      df ++ [data]

/-- Embedding of the Actualizar estado handler in page_citas
(src/streamlit_app.py line 362): upsert of a record holding only the
appointment id and the new status. -/
def update_status (df : List Row) (cid new_status freshKey : String) : List Row :=
  upsert_row df [("id", cid), ("status", new_status)] "id" freshKey

/-- Sample appointment row used to instantiate theorems with hypotheses. -/
def apptA : Appt :=
  { id := "a1", patient_id := "pat1", professional_id := "pro1",
    service_id := "srv1", date := "2025-01-15", start_time := "09:00:00",
    end_time := "10:00:00", status := "programada", notes := none,
    price := some 30000, created_at := "2025-01-01T00:00:00" }

/-- Sample appointment row with a blank start time. -/
def apptBlank : Appt :=
  { apptA with id := "a2", start_time := "" }

theorem strLe_eq_decide (x y : String) : strLe x y = decide (x ≤ y) := by
  by_cases h : x ≤ y
  · rw [(strLe_iff x y).mpr h, decide_eq_true h]
  · rw [decide_eq_false h, Bool.eq_false_iff]
    exact fun hh => h ((strLe_iff x y).mp hh)

theorem strLe_eq_false_iff (x y : String) : strLe x y = false ↔ y < x := by
  rw [Bool.eq_false_iff]
  constructor
  · intro h
    exact not_le.mp fun hle => h ((strLe_iff x y).mpr hle)
  · intro h hh
    exact absurd ((strLe_iff x y).mp hh) (not_le.mpr h)

/-- C1: for half-open intervals A = [a1, a2) and B = [b1, b2) given as
comparable time-of-day strings, the overlap predicate returns true iff
a1 < b2 and b1 < a2; in particular adjacent intervals with a2 = b1 do
not overlap. -/
theorem overlaps_correct (a1 a2 b1 b2 : String) :
    (overlaps a1 a2 b1 b2 = true ↔ a1 < b2 ∧ b1 < a2) ∧
    (a2 = b1 → overlaps a1 a2 b1 b2 = false) := by
  have key : overlaps a1 a2 b1 b2 = true ↔ a1 < b2 ∧ b1 < a2 := by
    rw [overlaps, Bool.not_eq_true', Bool.or_eq_false_iff,
      strLe_eq_false_iff, strLe_eq_false_iff]
    exact and_comm
  refine ⟨key, fun h => ?_⟩
  cases hov : overlaps a1 a2 b1 b2 with
  | false => rfl
  | true =>
    exfalso
    have hlt := (key.mp hov).2
    rw [h] at hlt
    exact lt_irrefl _ hlt

/-- Witness for the adjacent-interval part of the C1 theorem. -/
theorem overlaps_correct_witness :
    ("10:00:00" : String) = "10:00:00" ∧
    overlaps "09:00:00" "10:00:00" "10:00:00" "11:00:00" = false :=
  ⟨rfl, (overlaps_correct "09:00:00" "10:00:00" "10:00:00" "11:00:00").2 rfl⟩

/-- C8: slot generation from 09:00 to 10:00 with a 30-minute block
yields exactly the three slots 09:00, 09:30 and 10:00. -/
theorem generate_slots_nine_to_ten :
    generate_slots 30 "09:00" "10:00" = ["09:00", "09:30", "10:00"] := by
  decide

/-- C9: when no access passphrase is configured, the login click leaves
the session untouched for every submitted password; in particular an
unauthenticated session stays unauthenticated. -/
theorem login_rejected_without_password (email pwd : String) (s : Session) :
    login_click none email pwd s = s ∧
    (login_click none email pwd { authed := false, user_email := "" }).authed = false :=
  ⟨rfl, rfl⟩

/-- C10: an existing appointment whose start or end time is blank is
skipped by the conflict scan, so its presence never changes the scan's
outcome and never causes a rejection. -/
theorem conflict_scan_skips_blank_times (apps : List Appt) (r : Appt)
    (prid day s e : String) (h : r.start_time = "" ∨ r.end_time = "") :
    conflictScan (r :: apps) prid day s e = conflictScan apps prid day s e := by
  unfold conflictScan
  rw [List.filter_cons]
  by_cases hm : (r.professional_id == prid && r.date == day) = true
  · rw [if_pos hm, List.any_cons]
    rcases h with h | h <;> simp [h]
  · rw [if_neg hm]

/-- Witness for the C10 theorem at a concrete blank-start row. -/
theorem conflict_scan_skips_blank_times_witness :
    (apptBlank.start_time = "" ∨ apptBlank.end_time = "") ∧
    conflictScan [apptBlank] "pro1" "2025-01-15" "09:00:00" "10:00:00" =
      conflictScan [] "pro1" "2025-01-15" "09:00:00" "10:00:00" :=
  ⟨Or.inl rfl,
    conflict_scan_skips_blank_times [] apptBlank "pro1" "2025-01-15"
      "09:00:00" "10:00:00" (Or.inl rfl)⟩

/-- Sample service row used to instantiate theorems with hypotheses. -/
def svcA : Service :=
  { id := "srv1", name := "Terapia 30min", duration_minutes := 30,
    price := some 30000 }

theorem conflictScan_iff (apps : List Appt) (prid day s e : String) :
    conflictScan apps prid day s e = true ↔
      ∃ r ∈ apps, r.professional_id = prid ∧ r.date = day ∧
        r.start_time ≠ "" ∧ r.end_time ≠ "" ∧
        overlaps s e r.start_time r.end_time = true := by
  have hne : ∀ x : String, (!(x == "")) = true ↔ x ≠ "" := by
    intro x
    rw [Bool.not_eq_true', beq_eq_false_iff_ne]
  rw [conflictScan, List.any_eq_true]
  constructor
  · rintro ⟨r, hr, hpred⟩
    rw [List.mem_filter, Bool.and_eq_true, beq_iff_eq, beq_iff_eq] at hr
    simp only [Bool.and_eq_true] at hpred
    exact ⟨r, hr.1, hr.2.1, hr.2.2, (hne _).mp hpred.1.1, (hne _).mp hpred.1.2, hpred.2⟩
  · rintro ⟨r, hmem, hp, hd, hs, he, hov⟩
    refine ⟨r, ?_, ?_⟩
    · rw [List.mem_filter, Bool.and_eq_true, beq_iff_eq, beq_iff_eq]
      exact ⟨hmem, hp, hd⟩
    · simp only [Bool.and_eq_true]
      exact ⟨⟨(hne _).mpr hs, (hne _).mpr he⟩, hov⟩

/-- C2: creating an appointment for professional prid on day day is
rejected with no write exactly when some existing appointment of the
same professional and day (with an actual interval) overlaps the
candidate interval; otherwise the new row is appended. -/
theorem booking_conflict_check (apps : List Appt) (pid prid : String) (srv : Service)
    (day slot : String) (dur : Nat) (nts : Option String) (created newId : String)
    (hvalid : ∀ r ∈ apps, r.start_time ≠ "" ∧ r.end_time ≠ "") :
    ((∃ r ∈ apps, r.professional_id = prid ∧ r.date = day ∧
        overlaps (slot ++ ":00") (fmtHMS (parseHM slot + dur)) r.start_time r.end_time = true) →
      page_agenda_create apps pid prid srv day slot dur nts created newId = (apps, false)) ∧
    ((¬ ∃ r ∈ apps, r.professional_id = prid ∧ r.date = day ∧
        overlaps (slot ++ ":00") (fmtHMS (parseHM slot + dur)) r.start_time r.end_time = true) →
      page_agenda_create apps pid prid srv day slot dur nts created newId =
        (apps ++ [{ id := newId, patient_id := pid, professional_id := prid,
                    service_id := srv.id, date := day, start_time := slot ++ ":00",
                    end_time := fmtHMS (parseHM slot + dur), status := "programada",
                    notes := nts, price := some (srv.price.getD 0),
                    created_at := created }], true)) := by
  have hiff : conflictScan apps prid day (slot ++ ":00") (fmtHMS (parseHM slot + dur)) = true ↔
      ∃ r ∈ apps, r.professional_id = prid ∧ r.date = day ∧
        overlaps (slot ++ ":00") (fmtHMS (parseHM slot + dur)) r.start_time r.end_time = true := by
    rw [conflictScan_iff]
    constructor
    · rintro ⟨r, hmem, hp, hd, _, _, hov⟩
      exact ⟨r, hmem, hp, hd, hov⟩
    · rintro ⟨r, hmem, hp, hd, hov⟩
      exact ⟨r, hmem, hp, hd, (hvalid r hmem).1, (hvalid r hmem).2, hov⟩
  constructor
  · intro hex
    simp only [page_agenda_create]
    rw [if_pos (hiff.mpr hex)]
  · intro hnex
    simp only [page_agenda_create]
    rw [if_neg fun hh => hnex (hiff.mp hh)]

/-- Witness for the C2 theorem: a 09:30 booking against an existing
09:00-10:00 appointment of the same professional is rejected. -/
theorem booking_conflict_check_witness :
    (∀ r ∈ [apptA], r.start_time ≠ "" ∧ r.end_time ≠ "") ∧
    page_agenda_create [apptA] "pat1" "pro1" svcA "2025-01-15" "09:30" 30 none "t0" "n1" =
      ([apptA], false) :=
  ⟨by decide,
    (booking_conflict_check [apptA] "pat1" "pro1" svcA "2025-01-15" "09:30" 30 none "t0" "n1"
        (by decide)).1 (by decide)⟩

theorem rowSet_lookup_self (r : Row) (c v : String) :
    List.lookup c (rowSet r c v) = some v := by
  induction r with
  | nil => simp [rowSet, List.lookup]
  | cons kv rest ih =>
    obtain ⟨k, w⟩ := kv
    by_cases h : k = c
    · subst h
      simp [rowSet, List.lookup]
    · have hb : (k == c) = false := beq_eq_false_iff_ne.mpr h
      have hb' : (c == k) = false := beq_eq_false_iff_ne.mpr (Ne.symm h)
      simp [rowSet, List.lookup, hb, hb', ih]

theorem rowSet_lookup_other (r : Row) (c v c' : String) (h : c' ≠ c) :
    List.lookup c' (rowSet r c v) = List.lookup c' r := by
  induction r with
  | nil => simp [rowSet, List.lookup, beq_eq_false_iff_ne.mpr h]
  | cons kv rest ih =>
    obtain ⟨k, w⟩ := kv
    by_cases hk : k = c
    · subst hk
      simp [rowSet, List.lookup, beq_eq_false_iff_ne.mpr h]
    · simp [rowSet, beq_eq_false_iff_ne.mpr hk, List.lookup, ih]

theorem lookup_eq_none_of_not_mem (r : Row) (c : String)
    (h : c ∉ r.map Prod.fst) : List.lookup c r = none := by
  induction r with
  | nil => simp [List.lookup]
  | cons kv rest ih =>
    obtain ⟨k, w⟩ := kv
    have h1 : c ≠ k := fun e => h (by rw [e, List.map_cons]; exact List.mem_cons_self _ _)
    have h2 : c ∉ rest.map Prod.fst := fun m => h (by rw [List.map_cons]; exact List.mem_cons_of_mem _ m)
    simp [List.lookup, beq_eq_false_iff_ne.mpr h1, ih h2]

theorem applyData_lookup (r data : Row) (hnd : (data.map Prod.fst).Nodup) (c : String) :
    List.lookup c (applyData r data) = (List.lookup c data).or (List.lookup c r) := by
  induction data generalizing r with
  | nil => simp [applyData, List.lookup]
  | cons kv rest ih =>
    obtain ⟨k, v⟩ := kv
    rw [List.map_cons] at hnd
    obtain ⟨hk, hrest⟩ := List.nodup_cons.mp hnd
    have happ : applyData r ((k, v) :: rest) = applyData (rowSet r k v) rest := rfl
    rw [happ, ih (rowSet r k v) hrest]
    by_cases h : c = k
    · subst h
      rw [lookup_eq_none_of_not_mem rest c hk, rowSet_lookup_self]
      simp [List.lookup]
    · rw [rowSet_lookup_other r k v c h]
      simp [List.lookup, beq_eq_false_iff_ne.mpr h]

/-- Shape of the update branch of upsert_row: when the record carries a
non-blank key matching some row, every matching row gets the supplied
columns written and every other row is kept as is. -/
theorem upsert_row_update_eq (df : List Row) (data : Row) (pk fk key : String)
    (hkey : List.lookup pk data = some key) (hkb : strip key ≠ "")
    (hany : df.any (matchesKey pk key) = true) :
    upsert_row df data pk fk =
      df.map fun r => if matchesKey pk key r then applyData r data else r := by
  have hfresh : needsFresh data pk = false := by
    simp only [needsFresh, hkey]
    exact beq_eq_false_iff_ne.mpr hkb
  have hempty : df.isEmpty = false := by
    cases df with
    | nil => simp at hany
    | cons a l => rfl
  simp only [upsert_row, hfresh, Bool.false_eq_true, if_false, hempty, hkey,
    Option.getD_some, hany, if_true]

/-- C3: upsert_row with an absent or blank key appends a new row
carrying the freshly generated key (when that key matches no existing
row); upsert_row with a non-blank key matching an existing row keeps
the table length, leaves non-matching rows untouched, and on the
matching row overwrites exactly the supplied columns, every other
column reading back unchanged. -/
theorem upsert_row_spec (df : List Row) (data : Row) (pk fk : String) :
    (needsFresh data pk = true → (∀ r ∈ df, matchesKey pk fk r = false) →
      upsert_row df data pk fk = df ++ [rowSet data pk fk] ∧
      List.lookup pk (rowSet data pk fk) = some fk) ∧
    (∀ key, List.lookup pk data = some key → strip key ≠ "" →
      (data.map Prod.fst).Nodup → df.any (matchesKey pk key) = true →
      (upsert_row df data pk fk).length = df.length ∧
      ∀ (i : Nat) (r : Row), df[i]? = some r →
        (matchesKey pk key r = false → (upsert_row df data pk fk)[i]? = some r) ∧
        (matchesKey pk key r = true →
          ∃ r', (upsert_row df data pk fk)[i]? = some r' ∧
            ∀ c, List.lookup c r' = (List.lookup c data).or (List.lookup c r))) := by
  constructor
  · intro hfresh hnomatch
    refine ⟨?_, rowSet_lookup_self data pk fk⟩
    have hanyf : df.any (matchesKey pk fk) = false := by
      rw [Bool.eq_false_iff]
      intro hh
      obtain ⟨r, hmem, hr⟩ := List.any_eq_true.mp hh
      rw [hnomatch r hmem] at hr
      exact Bool.false_ne_true hr
    cases df with
    | nil => simp [upsert_row, hfresh]
    | cons a l =>
      simp only [upsert_row, hfresh, if_true, List.isEmpty_cons, Bool.false_eq_true,
        if_false, rowSet_lookup_self, Option.getD_some, hanyf]
  · intro key hkey hkb hnd hany
    rw [upsert_row_update_eq df data pk fk key hkey hkb hany]
    refine ⟨List.length_map df _, fun i r hir => ⟨?_, ?_⟩⟩
    · intro hm
      rw [List.getElem?_map, hir, Option.map_some']
      simp [hm]
    · intro hm
      refine ⟨applyData r data, ?_, fun c => applyData_lookup r data hnd c⟩
      rw [List.getElem?_map, hir, Option.map_some']
      simp [hm]

/-- Witness for the C3 theorem: an insert with a missing key and an
update against a one-row table. -/
theorem upsert_row_spec_witness :
    (needsFresh [("full_name", "Ana")] "id" = true ∧
      upsert_row [] [("full_name", "Ana")] "id" "k1" =
        [] ++ [rowSet [("full_name", "Ana")] "id" "k1"]) ∧
    (List.lookup "id" [("id", "1"), ("status", "atendida")] = some "1" ∧
      (upsert_row [[("id", "1"), ("status", "programada"), ("price", "30000")]]
          [("id", "1"), ("status", "atendida")] "id" "k9").length =
        [[("id", "1"), ("status", "programada"), ("price", "30000")]].length) :=
  ⟨⟨by decide,
      ((upsert_row_spec [] [("full_name", "Ana")] "id" "k1").1 (by decide)
        (by intro r hr; cases hr)).1⟩,
    ⟨by decide,
      ((upsert_row_spec [[("id", "1"), ("status", "programada"), ("price", "30000")]]
          [("id", "1"), ("status", "atendida")] "id" "k9").2 "1" (by decide) (by decide)
          (by decide) (by decide)).1⟩⟩

theorem matchesKey_eq_true_iff (pk key : String) (r : Row) :
    matchesKey pk key r = true ↔ List.lookup pk r = some key := by
  unfold matchesKey
  cases h : List.lookup pk r with
  | none => simp
  | some v => simp [beq_iff_eq]

/-- C4: the appointment price is written at creation as the selected
service's price, and the status-update action, which upserts only the
id and status columns, leaves the id column, the price column and every
column other than status unchanged on every row. -/
theorem price_immutable_after_creation (df : List Row) (cid ns fk : String)
    (hcid : strip cid ≠ "") (hmatch : df.any (matchesKey "id" cid) = true) :
    (update_status df cid ns fk).map (List.lookup "price") = df.map (List.lookup "price") ∧
    (∀ c : String, c ≠ "status" → c ≠ "id" →
      (update_status df cid ns fk).map (List.lookup c) = df.map (List.lookup c)) ∧
    (update_status df cid ns fk).map (List.lookup "id") = df.map (List.lookup "id") ∧
    (∀ (apps : List Appt) (pid prid : String) (srv : Service) (day slot : String)
        (dur : Nat) (nts : Option String) (created newId : String),
      (page_agenda_create apps pid prid srv day slot dur nts created newId).2 = true →
      ∃ row, (page_agenda_create apps pid prid srv day slot dur nts created newId).1 =
          apps ++ [row] ∧ row.price = some (srv.price.getD 0)) := by
  have hkey : List.lookup "id" [("id", cid), ("status", ns)] = some cid := rfl
  have hnd : (([("id", cid), ("status", ns)] : Row).map Prod.fst).Nodup := by
    simp
  have hupd : update_status df cid ns fk =
      df.map fun r => if matchesKey "id" cid r then applyData r [("id", cid), ("status", ns)] else r := by
    rw [update_status, upsert_row_update_eq df [("id", cid), ("status", ns)] "id" fk cid hkey hcid hmatch]
  have hcol : ∀ c : String, c ≠ "status" → c ≠ "id" →
      (update_status df cid ns fk).map (List.lookup c) = df.map (List.lookup c) := by
    intro c hcs hci
    rw [hupd, List.map_map]
    apply List.map_congr_left
    intro r _
    by_cases hm : matchesKey "id" cid r = true
    · simp only [Function.comp_apply, hm, if_true]
      rw [applyData_lookup r _ hnd c]
      have hnone : List.lookup c [("id", cid), ("status", ns)] = none := by
        simp [List.lookup, beq_eq_false_iff_ne.mpr hci, beq_eq_false_iff_ne.mpr hcs]
      rw [hnone, Option.none_or]
    · simp only [Function.comp_apply]
      rw [if_neg hm]
  refine ⟨hcol "price" (by decide) (by decide), hcol, ?_, ?_⟩
  · rw [hupd, List.map_map]
    apply List.map_congr_left
    intro r _
    by_cases hm : matchesKey "id" cid r = true
    · simp only [Function.comp_apply, hm, if_true]
      rw [applyData_lookup r _ hnd "id"]
      rw [hkey, (matchesKey_eq_true_iff "id" cid r).mp hm]
      rfl
    · simp only [Function.comp_apply]
      rw [if_neg hm]
  · intro apps pid prid srv day slot dur nts created newId hins
    by_cases hc : conflictScan apps prid day (slot ++ ":00") (fmtHMS (parseHM slot + dur)) = true
    · exfalso
      simp only [page_agenda_create, hc, if_true] at hins
      exact Bool.false_ne_true hins
    · refine ⟨{ id := newId, patient_id := pid, professional_id := prid,
                 service_id := srv.id, date := day, start_time := slot ++ ":00",
                 end_time := fmtHMS (parseHM slot + dur), status := "programada",
                 notes := nts, price := some (srv.price.getD 0),
                 created_at := created }, ?_, rfl⟩
      simp only [page_agenda_create]
      rw [if_neg hc]

/-- Witness for the C4 theorem: updating the status of a stored
appointment row does not change its price column. -/
theorem price_immutable_after_creation_witness :
    strip "1" ≠ "" ∧
    ([[("id", "1"), ("status", "programada"), ("price", "30000")]] : List Row).any
      (matchesKey "id" "1") = true ∧
    (update_status [[("id", "1"), ("status", "programada"), ("price", "30000")]]
        "1" "atendida" "k9").map (List.lookup "price") =
      ([[("id", "1"), ("status", "programada"), ("price", "30000")]] : List Row).map
        (List.lookup "price") :=
  ⟨by decide, by decide,
    (price_immutable_after_creation
        [[("id", "1"), ("status", "programada"), ("price", "30000")]]
        "1" "atendida" "k9" (by decide) (by decide)).1⟩

theorem range_pred_eq_decide (d1 d2 : String) (r : Appt) :
    (strLe d1 r.date && strLe r.date d2) = decide (d1 ≤ r.date ∧ r.date ≤ d2) := by
  by_cases h1 : d1 ≤ r.date <;> by_cases h2 : r.date ≤ d2 <;>
    simp [h1, h2, strLe_eq_decide]

/-- C5: over any appointment table and date range, the KPI count is the
number of appointments whose date lies within the range inclusive, and
the revenue is the sum of their stored prices with a missing price
counted as zero. -/
theorem kpi_count_and_revenue (df : List Appt) (d1 d2 : String) :
    total_citas df d1 d2 = df.countP (fun r => decide (d1 ≤ r.date ∧ r.date ≤ d2)) ∧
    ingresos df d1 d2 =
      (df.map fun r => if d1 ≤ r.date ∧ r.date ≤ d2 then r.price.getD 0 else 0).sum := by
  constructor
  · rw [total_citas, reportScope, List.countP_eq_length_filter]
    congr 1
    apply List.filter_congr
    intro r _
    exact range_pred_eq_decide d1 d2 r
  · rw [ingresos, reportScope]
    induction df with
    | nil => simp
    | cons r rest ih =>
      rw [List.filter_cons, List.map_cons]
      by_cases h : (strLe d1 r.date && strLe r.date d2) = true
      · have hp : d1 ≤ r.date ∧ r.date ≤ d2 := by
          rw [range_pred_eq_decide] at h
          exact of_decide_eq_true h
        rw [if_pos h, List.map_cons, List.sum_cons, List.sum_cons, ih, if_pos hp]
      · have hp : ¬(d1 ≤ r.date ∧ r.date ≤ d2) := fun hh => h (by
          rw [range_pred_eq_decide]
          exact decide_eq_true hh)
        rw [if_neg h, List.sum_cons, ih, if_neg hp, zero_add]

/-- C6: whenever the report scope is non-empty, slots-per-day is at
least one, the slot divisor is positive, and the occupancy percentage
is the appointment count divided by distinct professionals times
distinct days times slots-per-day, times 100. -/
theorem occupancy_formula (df : List Appt) (d1 d2 : String)
    (block : Nat) (ws we : String) (h : reportScope df d1 d2 ≠ []) :
    1 ≤ slots_por_dia block ws we ∧
    0 < total_slots_disp df d1 d2 block ws we ∧
    ocup df d1 d2 block ws we =
      ((total_citas df d1 d2 : ℚ) /
        ((nuniq ((reportScope df d1 d2).map (·.professional_id)) : ℚ) *
          (nuniq ((reportScope df d1 d2).map (·.date)) : ℚ) *
          ((slots_por_dia block ws we : Int) : ℚ))) * 100 := by
  have hspd : 1 ≤ slots_por_dia block ws we := le_max_left 1 _
  have hpos : ∀ f : Appt → String, 0 < (nuniq ((reportScope df d1 d2).map f) : Int) := by
    intro f
    have hm : (reportScope df d1 d2).map f ≠ [] :=
      fun hm => h (List.map_eq_nil_iff.mp hm)
    have hd : ((reportScope df d1 d2).map f).dedup ≠ [] :=
      fun hd => hm ((List.dedup_eq_nil _).mp hd)
    have : 0 < nuniq ((reportScope df d1 d2).map f) := by
      rw [nuniq]
      exact List.length_pos.mpr hd
    exact_mod_cast this
  have htot : 0 < total_slots_disp df d1 d2 block ws we := by
    rw [total_slots_disp]
    exact mul_pos (mul_pos (hpos _) (hpos _)) (lt_of_lt_of_le zero_lt_one hspd)
  refine ⟨hspd, htot, ?_⟩
  have hcast : ((total_slots_disp df d1 d2 block ws we : Int) : ℚ) =
      (nuniq ((reportScope df d1 d2).map (·.professional_id)) : ℚ) *
        (nuniq ((reportScope df d1 d2).map (·.date)) : ℚ) *
        ((slots_por_dia block ws we : Int) : ℚ) := by
    rw [total_slots_disp]
    push_cast
    ring
  simp only [ocup]
  rw [if_pos htot, hcast]

/-- Witness for the C6 theorem at a one-appointment scope. -/
theorem occupancy_formula_witness :
    reportScope [apptA] "2025-01-01" "2025-12-31" ≠ [] ∧
    0 < total_slots_disp [apptA] "2025-01-01" "2025-12-31" 30 "09:00" "18:30" :=
  ⟨by decide,
    (occupancy_formula [apptA] "2025-01-01" "2025-12-31" 30 "09:00" "18:30"
        (by decide)).2.1⟩

theorem slotsAux_nil_of_gt (fuel block cur endT : Nat) (h : endT < cur) :
    slotsAux fuel block cur endT = [] := by
  cases fuel with
  | zero => rfl
  | succ n => rw [slotsAux, if_neg (Nat.not_le.mpr h)]

theorem slotsAux_eq (block : Nat) (hb : 0 < block) :
    ∀ fuel cur endT : Nat, endT + 1 ≤ cur + fuel → cur ≤ endT →
      slotsAux fuel block cur endT =
        (List.range ((endT - cur) / block + 1)).map fun k => cur + block * k := by
  intro fuel
  induction fuel with
  | zero =>
    intro cur endT hf hle
    omega
  | succ n ih =>
    intro cur endT hf hle
    rw [slotsAux, if_pos hle]
    by_cases h2 : cur + block ≤ endT
    · rw [ih (cur + block) endT (by omega) h2]
      have hdiv : (endT - cur) / block = (endT - (cur + block)) / block + 1 := by
        have he : endT - cur = (endT - (cur + block)) + block := by omega
        rw [he, Nat.add_div_right _ hb]
      rw [hdiv, List.range_succ_eq_map ((endT - (cur + block)) / block + 1),
        List.map_cons, List.map_map]
      refine List.cons_eq_cons.mpr ⟨by simp, ?_⟩
      apply List.map_congr_left
      intro k _
      simp only [Function.comp_apply, Nat.succ_eq_add_one]
      ring
    · have hend : endT < cur + block := Nat.not_le.mp h2
      rw [slotsAux_nil_of_gt n block (cur + block) endT hend]
      have hdiv : (endT - cur) / block = 0 := Nat.div_eq_of_lt (by omega)
      rw [hdiv]
      rw [List.range_succ, List.range_zero]
      simp

/-- C7: for a positive block size and a day start at or before the day
end, the slot generator returns exactly the start-of-block times
start, start + block, start + 2 block, ... for as long as they do not
pass the day end, formatted as HH:MM. -/
theorem generate_slots_spec (block : Nat) (startS endS : String) (hb : 0 < block)
    (hse : parseHM startS ≤ parseHM endS) :
    generate_slots block startS endS =
      (List.range ((parseHM endS - parseHM startS) / block + 1)).map
        fun k => fmtHM (parseHM startS + block * k) := by
  simp only [generate_slots]
  rw [slotsAux_eq block hb (parseHM endS + 1 - parseHM startS)
    (parseHM startS) (parseHM endS) (by omega) hse, List.map_map]
  rfl

/-- Witness for the C7 theorem at the 09:00-10:00 workday with
30-minute blocks. -/
theorem generate_slots_spec_witness :
    0 < 30 ∧ parseHM "09:00" ≤ parseHM "10:00" ∧
    generate_slots 30 "09:00" "10:00" =
      (List.range ((parseHM "10:00" - parseHM "09:00") / 30 + 1)).map
        fun k => fmtHM (parseHM "09:00" + 30 * k) :=
  ⟨by decide, by decide, generate_slots_spec 30 "09:00" "10:00" (by decide) (by decide)⟩

end CianAgenda
